import Mathlib

/-!
Verification development for the fastEHC scan-statistics aggregator
(`fastEHC.py`).  The Python source is shallowly embedded: timestamps are
modelled as absolute instants in whole epoch seconds together with their
calendar day number, dictionaries become association lists or functions,
and fallible Python operations (timestamp parsing, division) return
`Except`.  Machine floats never carry fractional values in the modelled
paths (instants are whole seconds), so real subtraction is embedded as
integer subtraction.
-/

namespace FastEHC

/-- Python exception kinds observable in the embedded code paths. -/
inductive PyErr where
  | typeError
  | valueError
  | keyError
  | zeroDivisionError
deriving DecidableEq, Repr

/-- An absolute instant: `day` is the calendar day number (what
`datetime.date` subtraction counts), `ts` the epoch timestamp in whole
seconds (what `.timestamp()` returns). -/
structure Inst where
  day : Int
  ts : Int
deriving DecidableEq, Repr

/-- A timestamp-valued field of a scan record: absent (or JSON null),
present but unparsable, or a parsed instant. -/
inductive TSField where
  | absent
  | malformed
  | valid (i : Inst)
deriving DecidableEq, Repr

/-- One entry of the `ScannedLanguages` list of a record. -/
structure ScanLanguage where
  languageName : Option (List Char)
deriving DecidableEq, Repr

/-- One scan record, with every field the aggregation loop reads.
Optional fields are `Option`/`TSField`; strings are `List Char`. -/
structure ScanRecord where
  loc : Option Int
  scanRequestedOn : TSField
  queuedOn : TSField
  engineStartedOn : TSField
  engineFinishedOn : TSField
  scanCompletedOn : TSField
  isIncremental : Option Bool
  projectId : Option Int
  projectName : Option (List Char)
  totalVulnerabilities : Option Int
  high : Option Int
  medium : Option Int
  low : Option Int
  info : Option Int
  failedLoc : Option Int
  origin : Option (List Char)
  presetName : Option (List Char)
  scannedLanguages : List ScanLanguage
deriving DecidableEq

/-- `dateutil.parser.parse` applied to a field fetched with `.get(...)`:
`parse_date(None)` raises `TypeError`, an unparsable string raises a
`ValueError`, otherwise the instant is returned. -/
def parseDateField : TSField → Except PyErr Inst
  | .absent => .error .typeError
  | .malformed => .error .valueError
  | .valid i => .ok i

/-- Lines 262-263: `scan.get('ScanRequestedOn','').split('T')[0]` fed to
`datetime.strptime(..., "%Y-%m-%d").date()`.  An absent field yields the
empty string and `strptime` raises `ValueError`; so does a malformed one. -/
def strptimeScanDate : TSField → Except PyErr Int
  | .absent => .error .valueError
  | .malformed => .error .valueError
  | .valid i => .ok i.day

/-- Lines 63-68 composed with the `math.ceil` at each call site: both
instants are whole seconds, so the ceiling of the float difference is the
integer difference itself. -/
def calculate_time_difference (t1 t2 : TSField) : Except PyErr Int :=
  match parseDateField t1 with
  | .error e => .error e
  | .ok i1 =>
    match parseDateField t2 with
    | .error e => .error e
    | .ok i2 => .ok (i2.ts - i1.ts)

/-- Bracket dictionary access `scan['...']` followed by `parse_date`:
an absent key raises `KeyError`, a bad string `ValueError`. -/
def bracketParseDate : TSField → Except PyErr Inst
  | .absent => .error .keyError
  | .malformed => .error .valueError
  | .valid i => .ok i

/-- Lines 267-291: the LOC size-bin if/elif chain, with its inclusive
upper bounds. -/
def size_bin (loc : Int) : List Char :=
  if loc ≤ 20000 then "0 to 20k".toList
  else if loc ≤ 50000 then "20k-50k".toList
  else if loc ≤ 100000 then "50k-100k".toList
  else if loc ≤ 250000 then "100k-250k".toList
  else if loc ≤ 500000 then "250k-500k".toList
  else if loc ≤ 1000000 then "500k-1M".toList
  else if loc ≤ 2000000 then "1M-2M".toList
  else if loc ≤ 3000000 then "2M-3M".toList
  else if loc ≤ 5000000 then "3M-5M".toList
  else if loc ≤ 7000000 then "5M-7M".toList
  else if loc ≤ 10000000 then "7M-10M".toList
  else "10M+".toList

/-- Lines 136-156: the `printable_origins` dictionary in its insertion
order, as (key, display-name) pairs. -/
def printable_origins : List (List Char × List Char) :=
  [("ADO".toList, "ADO".toList),
   ("Bamboo".toList, "Bamboo".toList),
   ("CLI".toList, "CLI".toList),
   ("cx-CLI".toList, "cx-CLI".toList),
   ("CxFlow".toList, "CxFlow".toList),
   ("Eclipse".toList, "Eclipse".toList),
   ("cx-intellij".toList, "IntelliJ".toList),
   ("Jenkins".toList, "Jenkins".toList),
   ("Manual".toList, "Manual".toList),
   ("Maven".toList, "Maven".toList),
   ("Other".toList, "Other".toList),
   ("System".toList, "Scheduled".toList),
   ("TeamCity".toList, "TeamCity".toList),
   ("TFS".toList, "TFS".toList),
   ("Visual Studio".toList, "Visual Studio".toList),
   ("Visual-Studio-Code".toList, "Visual Studio Code".toList),
   ("VSTS".toList, "VSTS".toList),
   ("Web Portal".toList, "Web Portal".toList),
   ("MISSING ORIGIN TYPE".toList, "Missing Origin Type".toList)]

/-- Line 438: `next((printable_origins[key] for key in printable_origins
if origin.startswith(key)), 'Other')`. -/
def originGroup (origin : List Char) : List Char :=
  match printable_origins.find? (fun p => p.1.isPrefixOf origin) with
  | some p => p.2
  | none => "Other".toList

/-- `d[k] = d.get(k, 0) + 1` on an insertion-ordered dictionary:
increment in place if present, else append a fresh key at the end. -/
def bumpKey {K : Type} [DecidableEq K] : List (K × Nat) → K → List (K × Nat)
  | [], k => [(k, 1)]
  | (k', n) :: rest, k =>
    if k' = k then (k', n + 1) :: rest else (k', n) :: bumpKey rest k

/-- Per-date statistics dictionary entry (lines 294-305). -/
structure DateStats where
  total_scan_count : Nat
  yes_scan_count : Nat
  no_scan_count : Nat
  full_scan_count : Nat
  incremental_scan_count : Nat
  loc__sum : Int
  loc__max : Int
  failed_loc__sum : Int
  failed_loc__max : Int
deriving DecidableEq, Repr

/-- Fresh per-date entry, all zero. -/
def initDateStats : DateStats :=
  ⟨0, 0, 0, 0, 0, 0, 0, 0, 0⟩

/-- Per-project entry (lines 323-333). -/
structure ProjStats where
  id : Int
  project_name : List Char
  project_scan_count : Nat
  total_vulns_count : Int
  high_count : Int
  medium_count : Int
  low_count : Int
  info_count : Int
deriving DecidableEq, Repr

/-- The `results` dictionary (lines 122-126). -/
structure ResultsStats where
  total_vulns__sum : Int
  high__sum : Int
  medium__sum : Int
  low__sum : Int
  info__sum : Int
  total_vulns__max : Int
  high__max : Int
  medium__max : Int
  low__max : Int
  info__max : Int
  total_vulns__avg : Int
  high__avg : Int
  medium__avg : Int
  low__avg : Int
  info__avg : Int
  high_results__scan_count : Nat
  medium_results__scan_count : Nat
  low_results__scan_count : Nat
  info_results__scan_count : Nat
  zero_results__scan_count : Nat
deriving DecidableEq, Repr

/-- All-zero `results` dictionary. -/
def initResultsStats : ResultsStats :=
  ⟨0, 0, 0, 0, 0, 0, 0, 0, 0, 0, 0, 0, 0, 0, 0, 0, 0, 0, 0, 0⟩

/-- One size-bin entry (lines 160-197). -/
structure BinStats where
  yes_scan_count : Nat
  no_scan_count : Nat
  total_scan_time__sum : Int
  source_pulling_time__sum : Int
  queue_time__sum : Int
  engine_scan_time__sum : Int
  total_scan_time__max : Int
  source_pulling_time__max : Int
  queue_time__max : Int
  engine_scan_time__max : Int
  total_scan_time__avg : Int
  source_pulling_time__avg : Int
  queue_time__avg : Int
  engine_scan_time__avg : Int
deriving DecidableEq, Repr

/-- All-zero size-bin entry. -/
def initBinStats : BinStats :=
  ⟨0, 0, 0, 0, 0, 0, 0, 0, 0, 0, 0, 0, 0, 0⟩

/-- A concurrency event `(timestamp, change_in_count, event_type)`;
`isEngine = true` for `'engine'`, `false` for `'queue'` (lines 200-204). -/
structure CCEvent where
  ts : Int
  delta : Int
  isEngine : Bool
deriving DecidableEq, Repr

/-- The mutable accumulator state of the processing loop. -/
structure ScanState where
  first_date : Int
  last_date : Int
  yes_scan_count : Nat
  no_scan_count : Nat
  scan_stats_by_date : Int → Option DateStats
  scanned_projects : List Char → Option ProjStats
  results : ResultsStats
  preset_names : List (Option (List Char) × Nat)
  scanned_languages : List (List Char × Nat)
  origins : List (List Char × Nat)
  size_bins : List Char → BinStats
  cc_events : List CCEvent

/-- Day number of `datetime.max.date()` (9999-12-31), the `first_date`
sentinel of line 113, counted from the 1970-01-01 epoch. -/
def datetimeMaxDay : Int := 2932896

/-- Day number of `datetime.min.date()` (0001-01-01), the `last_date`
sentinel of line 114. -/
def datetimeMinDay : Int := -719162

/-- Initial accumulator state (lines 110-204). -/
def initState : ScanState where
  first_date := datetimeMaxDay
  last_date := datetimeMinDay
  yes_scan_count := 0
  no_scan_count := 0
  scan_stats_by_date := fun _ => none
  scanned_projects := fun _ => none
  results := initResultsStats
  preset_names := []
  scanned_languages := []
  origins := []
  size_bins := fun _ => initBinStats
  cc_events := []

/-- Lines 355-356 and 412-413 both test `EngineFinishedOn` for presence; a
present field is re-parsed.  This helper is the engine-time computation of
line 356: `None` when the scan never finished, otherwise the parsed
duration (which can raise). -/
def engineTimeOpt (r : ScanRecord) : Except PyErr (Option Int) :=
  match r.engineFinishedOn with
  | .absent => .ok none
  | f =>
    match calculate_time_difference r.engineStartedOn f with
    | .error e => .error e
    | .ok t => .ok (some t)

/-- Line 413: the re-parse of a present `EngineFinishedOn`, `None` when
the field is absent. -/
def finishTsOpt (r : ScanRecord) : Except PyErr (Option Int) :=
  match r.engineFinishedOn with
  | .absent => .ok none
  | f =>
    match parseDateField f with
    | .error e => .error e
    | .ok i => .ok (some i.ts)

/-- All the pure per-record state updates of one loop iteration
(lines 261-417), given the already-extracted fallible values:
`scanDate` from line 263, the three durations of lines 342-344,
`engineT?` from line 356, the queue/engine-start epoch stamps of lines
404-405 and the optional finish stamp of line 413. -/
def buildState (st : ScanState) (r : ScanRecord) (loc : Int) (scanDate : Int)
    (sourcePull queueT totalT : Int) (engineT? : Option Int)
    (qts sts : Int) (finTs? : Option Int) : ScanState :=
  let bin_key := size_bin loc
  let failedLoc := r.failedLoc.getD 0
  let ds0 := (st.scan_stats_by_date scanDate).getD initDateStats
  let ds1 : DateStats :=
    { ds0 with
      total_scan_count := ds0.total_scan_count + 1
      loc__sum := ds0.loc__sum + loc
      loc__max := max loc ds0.loc__max
      failed_loc__sum := ds0.failed_loc__sum + failedLoc
      failed_loc__max := max failedLoc ds0.failed_loc__max }
  let ds2 :=
    if r.isIncremental.getD false then
      { ds1 with incremental_scan_count := ds1.incremental_scan_count + 1 }
    else
      { ds1 with full_scan_count := ds1.full_scan_count + 1 }
  let ds3 :=
    if engineT?.isSome then { ds2 with yes_scan_count := ds2.yes_scan_count + 1 }
    else { ds2 with no_scan_count := ds2.no_scan_count + 1 }
  let project_id := r.projectId.getD 0
  let project_name := r.projectName.getD []
  let pid := (toString project_id).toList ++ '_' :: project_name
  let tv := r.totalVulnerabilities.getD 0
  let hi := r.high.getD 0
  let md := r.medium.getD 0
  let lw := r.low.getD 0
  let nf := r.info.getD 0
  let pj0 := (st.scanned_projects pid).getD
    { id := project_id, project_name := project_name, project_scan_count := 0
      total_vulns_count := 0, high_count := 0, medium_count := 0
      low_count := 0, info_count := 0 }
  let pj1 := { pj0 with
      project_scan_count := pj0.project_scan_count + 1
      total_vulns_count := tv, high_count := hi, medium_count := md
      low_count := lw, info_count := nf }
  let b0 := st.size_bins bin_key
  let b1 := { b0 with
      source_pulling_time__sum := b0.source_pulling_time__sum + sourcePull
      queue_time__sum := b0.queue_time__sum + queueT
      total_scan_time__sum := b0.total_scan_time__sum + totalT
      source_pulling_time__max := max sourcePull b0.source_pulling_time__max
      queue_time__max := max queueT b0.queue_time__max
      total_scan_time__max := max totalT b0.total_scan_time__max }
  let b2 :=
    match engineT? with
    | some t =>
      { b1 with yes_scan_count := b1.yes_scan_count + 1
                engine_scan_time__sum := b1.engine_scan_time__sum + t
                engine_scan_time__max := max t b1.engine_scan_time__max }
    | none => { b1 with no_scan_count := b1.no_scan_count + 1 }
  let res0 := st.results
  let res1 := { res0 with
      total_vulns__sum := res0.total_vulns__sum + tv
      high__sum := res0.high__sum + hi
      medium__sum := res0.medium__sum + md
      low__sum := res0.low__sum + lw
      info__sum := res0.info__sum + nf
      total_vulns__max := max res0.total_vulns__max tv
      high__max := max res0.high__max hi
      medium__max := max res0.medium__max md
      low__max := max res0.low__max lw
      info__max := max res0.info__max nf
      high_results__scan_count :=
        res0.high_results__scan_count + (if 0 < hi then 1 else 0)
      medium_results__scan_count :=
        res0.medium_results__scan_count + (if 0 < md then 1 else 0)
      low_results__scan_count :=
        res0.low_results__scan_count + (if 0 < lw then 1 else 0)
      info_results__scan_count :=
        res0.info_results__scan_count + (if 0 < nf then 1 else 0)
      zero_results__scan_count :=
        res0.zero_results__scan_count + (if tv = 0 then 1 else 0) }
  let langs := r.scannedLanguages.foldl
    (fun m l =>
      match l.languageName with
      | none => m
      | some nm =>
        if nm = [] then m
        else if nm = "Common".toList then m
        else bumpKey m nm)
    st.scanned_languages
  let newEvents : List CCEvent :=
    [⟨qts, 1, false⟩, ⟨sts, -1, false⟩] ++
    (match finTs? with
     | some fts => [⟨sts, 1, true⟩, ⟨qts + (fts - sts), -1, true⟩]
     | none => [])
  { first_date := min st.first_date scanDate
    last_date := max st.last_date scanDate
    yes_scan_count := st.yes_scan_count + (if engineT?.isSome then 1 else 0)
    no_scan_count := st.no_scan_count + (if engineT?.isSome then 0 else 1)
    scan_stats_by_date := fun d =>
      if d = scanDate then some ds3 else st.scan_stats_by_date d
    scanned_projects := fun p =>
      if p = pid then some pj1 else st.scanned_projects p
    results := res1
    preset_names := bumpKey st.preset_names r.presetName
    scanned_languages := langs
    origins := bumpKey st.origins (r.origin.getD "Unknown".toList)
    size_bins := fun k => if k = bin_key then b2 else st.size_bins k
    cc_events := st.cc_events ++ newEvents }

/-- One iteration of the per-scan loop (lines 225-417): a record with
absent `LOC` is skipped outright (line 257-259); otherwise the fallible
extractions happen in source order and any raised exception aborts the
whole pass. -/
def stepScan (st : ScanState) (r : ScanRecord) : Except PyErr ScanState :=
  match r.loc with
  | none => .ok st
  | some loc =>
    match strptimeScanDate r.scanRequestedOn with
    | .error e => .error e
    | .ok scanDate =>
    match calculate_time_difference r.scanRequestedOn r.queuedOn with
    | .error e => .error e
    | .ok sourcePull =>
    match calculate_time_difference r.queuedOn r.engineStartedOn with
    | .error e => .error e
    | .ok queueT =>
    match calculate_time_difference r.scanRequestedOn r.scanCompletedOn with
    | .error e => .error e
    | .ok totalT =>
    match engineTimeOpt r with
    | .error e => .error e
    | .ok engineT? =>
    match bracketParseDate r.queuedOn with
    | .error e => .error e
    | .ok qi =>
    match bracketParseDate r.engineStartedOn with
    | .error e => .error e
    | .ok si =>
    match finishTsOpt r with
    | .error e => .error e
    | .ok finTs? =>
      .ok (buildState st r loc scanDate sourcePull queueT totalT engineT?
            qi.ts si.ts finTs?)

/-- The record loop: fold `stepScan` over the stream, aborting on the
first raised exception. -/
def runScans (st : ScanState) : List ScanRecord → Except PyErr ScanState
  | [] => .ok st
  | r :: rest =>
    match stepScan st r with
    | .error e => .error e
    | .ok st' => runScans st' rest

/-- The record loop started from the initial state. -/
def processRecords (scans : List ScanRecord) : Except PyErr ScanState :=
  runScans initState scans

/-- `math.ceil(a / b)` for a positive integer denominator, float-free. -/
def pyCeilDiv (a : Int) (n : Nat) : Int :=
  -((-a) / (n : Int))

/-- Python 3 `round(a / b)` for a positive integer denominator: round
half to even. -/
def pyRoundDiv (a : Int) (n : Nat) : Int :=
  let q := a / (n : Int)
  let r := a - q * (n : Int)
  if 2 * r < (n : Int) then q
  else if (n : Int) < 2 * r then q + 1
  else if q % 2 = 0 then q else q + 1

/-- Lines 421-428: the per-bin average pass; both branches are guarded by
positive denominators, and a positive `yes_scan_count` recomputes and
overwrites `total_scan_time__avg`. -/
def binAvgPass (b : BinStats) : BinStats :=
  let b1 :=
    if 0 < b.yes_scan_count + b.no_scan_count then
      { b with
        source_pulling_time__avg :=
          pyCeilDiv b.source_pulling_time__sum (b.yes_scan_count + b.no_scan_count)
        queue_time__avg :=
          pyCeilDiv b.queue_time__sum (b.yes_scan_count + b.no_scan_count)
        total_scan_time__avg :=
          pyCeilDiv b.total_scan_time__sum (b.yes_scan_count + b.no_scan_count) }
    else b
  if 0 < b1.yes_scan_count then
    { b1 with
      engine_scan_time__avg := pyCeilDiv b1.engine_scan_time__sum b1.yes_scan_count
      total_scan_time__avg := pyCeilDiv b1.total_scan_time__sum b1.yes_scan_count }
  else b1

/-- Lines 429-433: the severity averages divide by `total_scan_count`
with no guard, so a zero denominator raises `ZeroDivisionError`. -/
def finalizeResults (res : ResultsStats) (total : Nat) : Except PyErr ResultsStats :=
  if total = 0 then .error .zeroDivisionError
  else .ok { res with
    total_vulns__avg := pyCeilDiv res.total_vulns__sum total
    high__avg := pyRoundDiv res.high__sum total
    medium__avg := pyRoundDiv res.medium__sum total
    low__avg := pyRoundDiv res.low__sum total
    info__avg := pyRoundDiv res.info__sum total }

/-- The total count a display bucket receives from the grouping loop of
lines 436-440, projected at one display name `g`. -/
def groupTotal (origins : List (List Char × Nat)) (g : List Char) : Nat :=
  origins.foldl (fun acc p => if originGroup p.1 = g then acc + p.2 else acc) 0

/-- The display names in `printable_origins.values()` order. -/
def originDisplays : List (List Char) := printable_origins.map (·.2)

/-- Line 441: `grouped_origins_2`, the display buckets with positive
counts, in dictionary order. -/
def groupedOrigins2 (origins : List (List Char × Nat)) : List (List Char × Nat) :=
  originDisplays.filterMap (fun g =>
    let c := groupTotal origins g
    if 0 < c then some (g, c) else none)

/-- Line 32: snapshot width in seconds. -/
def cc_snapshot_seconds : Int := 1

/-- `datetime.combine(d, datetime.min.time()).timestamp()`: the epoch
instant of a day's midnight, with days numbered from the epoch. -/
def midnightTs (day : Int) : Int := day * 86400

/-- One event applied to the running pair (lines 466-471): engine events
move `active_engines`, queue events move `queue_length`. -/
def applyCCEvent (p : Int × Int) (e : CCEvent) : Int × Int :=
  if e.isEngine then (p.1 + e.delta, p.2) else (p.1, p.2 + e.delta)

/-- The snapshot loop of lines 460-479: each grid cell consumes, via the
shared advancing index, every not-yet-consumed event strictly before the
cell's end boundary, then records `(cell_start, active_engines,
queue_length)`. -/
def snapshotsAux (w : Int) : Nat → List CCEvent → Int → Int × Int →
    List (Int × Int × Int)
  | 0, _, _, _ => []
  | n + 1, evs, cellStart, st =>
    let cellEnd := cellStart + w
    let fired := evs.takeWhile (fun e => decide (e.ts < cellEnd))
    let st' := fired.foldl applyCCEvent st
    (cellStart, st'.1, st'.2) ::
      snapshotsAux w n (evs.dropWhile (fun e => decide (e.ts < cellEnd))) cellEnd st'

/-- Lines 443-479: filter events to the inclusive window, stable-sort by
instant, and walk `ceil((end - start) / width)` grid cells. -/
def reconstruct (events : List CCEvent) (startTs endTs w : Int) :
    List (Int × Int × Int) :=
  let filtered := events.filter
    (fun e => decide (startTs ≤ e.ts) && decide (e.ts ≤ endTs))
  let sorted := filtered.mergeSort (fun a b => decide (a.ts ≤ b.ts))
  let n := (-((startTs - endTs) / w)).toNat
  snapshotsAux w n sorted startTs (0, 0)

/-- The dictionary returned by `process_scans` (lines 486-497). -/
structure Bundle where
  first_date : Int
  last_date : Int
  scan_stats_by_date : Int → Option DateStats
  scanned_projects : List Char → Option ProjStats
  size_bins : List Char → BinStats
  results : ResultsStats
  preset_names : List (Option (List Char) × Nat)
  scanned_languages : List (List Char × Nat)
  origins : List (List Char × Nat)
  cc_metrics : List (Int × Int × Int)

/-- The post-stream phase of `process_scans` (lines 419-497), in source
order: bin averages, severity averages (which can raise), origin
grouping, concurrency reconstruction, and assembly of the result
dictionary. -/
def finalize (st : ScanState) : Except PyErr Bundle :=
  let total_scan_count := st.yes_scan_count + st.no_scan_count
  let bins := fun k => binAvgPass (st.size_bins k)
  match finalizeResults st.results total_scan_count with
  | .error e => .error e
  | .ok res =>
    let ws := midnightTs st.first_date
    let we := midnightTs st.last_date
    .ok { first_date := st.first_date
          last_date := st.last_date
          scan_stats_by_date := st.scan_stats_by_date
          scanned_projects := st.scanned_projects
          size_bins := bins
          results := res
          preset_names := st.preset_names
          scanned_languages := st.scanned_languages
          origins := groupedOrigins2 st.origins
          cc_metrics := reconstruct st.cc_events ws we cc_snapshot_seconds }

/-- The whole aggregation engine `process_scans` (lines 108-497), minus
the CSV side output which touches no statistics. -/
def process_scans (scans : List ScanRecord) : Except PyErr Bundle :=
  match processRecords scans with
  | .error e => .error e
  | .ok st => finalize st

/-- Line 575 of `output_analysis`:
`total_days = (data['last_date'] - data['first_date']).days`. -/
def total_days (b : Bundle) : Int := b.last_date - b.first_date

/-- Line 576: `total_weeks = math.ceil(total_days / 7)`. -/
def total_weeks (b : Bundle) : Int := pyCeilDiv (total_days b) 7

/-- Line 770 / 784: `round(total_scan_count / total_days)` — the Python
division raises `ZeroDivisionError` when `total_days` is zero. -/
def avgScansPerDay (total_scan_count : Nat) (td : Int) : Except PyErr Int :=
  if td = 0 then .error .zeroDivisionError
  else .ok (pyRoundDiv (total_scan_count : Int) td.toNat)

/-- `total_days` of a processed stream, wrapped in the run's `Except`. -/
def totalDaysOf (scans : List ScanRecord) : Except PyErr Int :=
  (process_scans scans).map total_days

/-- The `cc_events` accumulated by a processed stream. -/
def ccEventsOf (scans : List ScanRecord) : Except PyErr (List CCEvent) :=
  (processRecords scans).map ScanState.cc_events

/-- Number of records skipped at lines 257-259 for an absent `LOC`: the
source keeps no explicit counter, so the missing count is the number of
skipped records. -/
def countMissingLoc (scans : List ScanRecord) : Nat :=
  (scans.filter (fun r => r.loc.isNone)).length

/-- Number of records with a `LOC` value. -/
def countPresentLoc (scans : List ScanRecord) : Nat :=
  (scans.filter (fun r => r.loc.isSome)).length

/-- Number of yes-scans in a stream: `LOC` present and an engine-finish
timestamp present. -/
def countYes (scans : List ScanRecord) : Nat :=
  (scans.filter (fun r => r.loc.isSome && !(r.engineFinishedOn = .absent))).length

/-- Number of no-scans in a stream: `LOC` present, engine-finish absent. -/
def countNo (scans : List ScanRecord) : Nat :=
  (scans.filter (fun r => r.loc.isSome && (r.engineFinishedOn = .absent))).length

/-- A fully populated valid record for concrete evaluations: LOC 15000,
requested and queued at epoch second 0 of day 0, engine start at 10,
engine finish at 20, completion at 25. -/
def baseRec : ScanRecord where
  loc := some 15000
  scanRequestedOn := .valid ⟨0, 0⟩
  queuedOn := .valid ⟨0, 0⟩
  engineStartedOn := .valid ⟨0, 10⟩
  engineFinishedOn := .valid ⟨0, 20⟩
  scanCompletedOn := .valid ⟨0, 25⟩
  isIncremental := none
  projectId := none
  projectName := none
  totalVulnerabilities := some 3
  high := some 1
  medium := some 0
  low := none
  info := none
  failedLoc := none
  origin := none
  presetName := some "Default".toList
  scannedLanguages := [⟨some "Java".toList⟩]

/-- A scan queued at 0 whose engine ran from 100 to 105: the queue delay
(100 s) exceeds the engine run time (5 s). -/
def lateStartRec : ScanRecord :=
  { baseRec with
    engineStartedOn := .valid ⟨0, 100⟩
    engineFinishedOn := .valid ⟨0, 105⟩
    scanCompletedOn := .valid ⟨0, 110⟩ }

/-- A record with a LOC value but an absent `ScanRequestedOn`. -/
def absentReqRec : ScanRecord :=
  { baseRec with scanRequestedOn := .absent }

/-- A record with a LOC value but an unparsable `ScanRequestedOn`. -/
def malformedReqRec : ScanRecord :=
  { baseRec with scanRequestedOn := .malformed }

/-- A record with no LOC value. -/
def missingLocRec : ScanRecord :=
  { baseRec with loc := none }

/-- A record with no engine-finish timestamp (a no-scan). -/
def noScanRec : ScanRecord :=
  { baseRec with engineFinishedOn := .absent }

/-- Two queue events used to exercise the reconstructor. -/
def cwEvents : List CCEvent := [⟨3, 1, false⟩, ⟨5, -1, false⟩]

/-- A record with an absent LOC leaves the whole accumulator state
untouched: the loop body `continue`s before any update. -/
theorem stepScan_loc_none (st : ScanState) (r : ScanRecord) (h : r.loc = none) :
    stepScan st r = .ok st := by
  unfold stepScan
  rw [h]

/-- `find?` returns the element at the first index whose predicate
holds, when every earlier element fails it. -/
theorem find?_eq_of_take {α : Type} (p : α → Bool) :
    ∀ (l : List α) (i : Nat) (hi : i < l.length),
      p (l.get ⟨i, hi⟩) = true →
      (∀ a ∈ l.take i, p a = false) →
      l.find? p = some (l.get ⟨i, hi⟩)
  | [], i, hi, _, _ => absurd hi (by simp)
  | a :: l, 0, hi, hp, _ => by
    rw [List.find?_cons_of_pos _ (by simpa using hp)]
    rfl
  | a :: l, i + 1, hi, hp, hneg => by
    have ha : p a = false := hneg a (by simp [List.take_succ_cons])
    rw [List.find?_cons_of_neg _ (by simp [ha])]
    have ih := find?_eq_of_take p l i (by simpa using hi) (by simpa using hp)
      (fun b hb => hneg b (by simp [List.take_succ_cons, hb]))
    simpa using ih

set_option maxHeartbeats 1600000 in
/-- C9: the size-binning function is total over the integers (it is a
Lean function), maps each LOC value into the twelve ordered ranges with
the inclusive upper bounds 20000, 50000, 100000, 250000, 500000,
1000000, 2000000, 3000000, 5000000, 7000000, 10000000 and an open-ended
top bin, a LOC of exactly 20000 falls in the `0 to 20k` bin, and 20001
falls in `20k-50k`. -/
theorem C9_size_bin_ranges :
    (∀ loc : Int,
      (loc ≤ 20000 → size_bin loc = "0 to 20k".toList) ∧
      (20000 < loc → loc ≤ 50000 → size_bin loc = "20k-50k".toList) ∧
      (50000 < loc → loc ≤ 100000 → size_bin loc = "50k-100k".toList) ∧
      (100000 < loc → loc ≤ 250000 → size_bin loc = "100k-250k".toList) ∧
      (250000 < loc → loc ≤ 500000 → size_bin loc = "250k-500k".toList) ∧
      (500000 < loc → loc ≤ 1000000 → size_bin loc = "500k-1M".toList) ∧
      (1000000 < loc → loc ≤ 2000000 → size_bin loc = "1M-2M".toList) ∧
      (2000000 < loc → loc ≤ 3000000 → size_bin loc = "2M-3M".toList) ∧
      (3000000 < loc → loc ≤ 5000000 → size_bin loc = "3M-5M".toList) ∧
      (5000000 < loc → loc ≤ 7000000 → size_bin loc = "5M-7M".toList) ∧
      (7000000 < loc → loc ≤ 10000000 → size_bin loc = "7M-10M".toList) ∧
      (10000000 < loc → size_bin loc = "10M+".toList)) ∧
    size_bin 20000 = "0 to 20k".toList ∧ size_bin 20001 = "20k-50k".toList := by
  refine ⟨fun loc => ?_, by decide, by decide⟩
  refine ⟨?_, ?_, ?_, ?_, ?_, ?_, ?_, ?_, ?_, ?_, ?_, ?_⟩ <;>
    · intros
      simp only [size_bin]
      split_ifs <;> first | rfl | omega

/-- C9 witness: LOC 20000 lands in the first bin via the range
characterization. -/
theorem C9_size_bin_ranges_witness :
    size_bin 20000 = "0 to 20k".toList :=
  (C9_size_bin_ranges.1 20000).1 (by decide)

/-- The classification picks the key at index `i` when that key is a
prefix of the input and no earlier key is. -/
theorem originGroup_eq_of_first (origin : List Char) (i : Nat)
    (hi : i < printable_origins.length)
    (hp : (printable_origins.get ⟨i, hi⟩).1.isPrefixOf origin = true)
    (hneg : ∀ p ∈ printable_origins.take i, p.1.isPrefixOf origin = false) :
    originGroup origin = (printable_origins.get ⟨i, hi⟩).2 := by
  unfold originGroup
  rw [find?_eq_of_take (fun p => p.1.isPrefixOf origin) printable_origins i hi hp hneg]

/-- Head mismatch refutes a prefix test. -/
theorem isPrefixOf_head_neq {a b : Char} (as bs : List Char) (h : (a == b) = false) :
    List.isPrefixOf (a :: as) (b :: bs) = false := by
  simp [List.isPrefixOf_cons₂, h]

/-- C7: origin classification returns the display name of the first key
(in the fixed `printable_origins` enumeration order) that is a prefix of
the input, `Other` when no key is a prefix, and every string beginning
with `cx-CLI` is bucketed under the `cx-CLI` key. -/
theorem C7_origin_first_prefix :
    (∀ (origin : List Char) (i : Nat) (hi : i < printable_origins.length),
        (printable_origins.get ⟨i, hi⟩).1.isPrefixOf origin = true →
        (∀ p ∈ printable_origins.take i, p.1.isPrefixOf origin = false) →
        originGroup origin = (printable_origins.get ⟨i, hi⟩).2) ∧
    (∀ origin : List Char,
        (∀ p ∈ printable_origins, p.1.isPrefixOf origin = false) →
        originGroup origin = "Other".toList) ∧
    (∀ rest : List Char, originGroup ("cx-CLI".toList ++ rest) = "cx-CLI".toList) := by
  refine ⟨fun origin i hi hp hneg => originGroup_eq_of_first origin i hi hp hneg, ?_, ?_⟩
  · intro origin hnone
    unfold originGroup
    rw [List.find?_eq_none.mpr (fun p hp => by simp [hnone p hp])]
  · intro rest
    have hp : (printable_origins.get ⟨3, by decide⟩).1.isPrefixOf
        ("cx-CLI".toList ++ rest) = true := by
      show List.isPrefixOf "cx-CLI".toList ("cx-CLI".toList ++ rest) = true
      simp [List.isPrefixOf]
    have hneg : ∀ p ∈ printable_origins.take 3,
        p.1.isPrefixOf ("cx-CLI".toList ++ rest) = false := by
      intro p hp'
      have ht : printable_origins.take 3 =
          [("ADO".toList, "ADO".toList), ("Bamboo".toList, "Bamboo".toList),
           ("CLI".toList, "CLI".toList)] := rfl
      rw [ht] at hp'
      simp only [List.mem_cons, List.not_mem_nil, or_false] at hp'
      rcases hp' with h | h | h <;> subst h
      · exact isPrefixOf_head_neq "DO".toList ("x-CLI".toList ++ rest) (by decide)
      · exact isPrefixOf_head_neq "amboo".toList ("x-CLI".toList ++ rest) (by decide)
      · exact isPrefixOf_head_neq "LI".toList ("x-CLI".toList ++ rest) (by decide)
    exact originGroup_eq_of_first ("cx-CLI".toList ++ rest) 3 (by decide) hp hneg

/-- C7 witness: the ambiguous origin `cx-CLI-x` (key `CLI` also appears
in the table, at an earlier index than `cx-CLI`) is classified by the
first matching key, which is `cx-CLI` at index 3. -/
theorem C7_origin_first_prefix_witness :
    originGroup "cx-CLI-x".toList = "cx-CLI".toList :=
  C7_origin_first_prefix.1 "cx-CLI-x".toList 3 (by decide) (by decide) (by decide)

/-- C1: evaluating the embedded event emission shows the engine-busy
interval is not `[queued, queued + engine_duration]`.  For a scan queued
at 0 with engine run `[10, 20]` the code emits `+1` at 10 (the literal
engine start) and `-1` at `0 + (20 - 10) = 10`: a zero-length interval
where the claim requires `[0, 10]` of length 10.  For a scan queued at 0
with engine run `[100, 105]` the `-1` lands at instant 5, before the
`+1` at 100. -/
theorem C1_engine_events_eval :
    ccEventsOf [baseRec] =
      .ok [⟨0, 1, false⟩, ⟨10, -1, false⟩, ⟨10, 1, true⟩, ⟨10, -1, true⟩] ∧
    ccEventsOf [lateStartRec] =
      .ok [⟨0, 1, false⟩, ⟨100, -1, false⟩, ⟨100, 1, true⟩, ⟨5, -1, true⟩] :=
  ⟨rfl, rfl⟩

/-- C3 counterexample: a record with a LOC value whose required
`ScanRequestedOn` timestamp is absent makes `process_scans` raise
(`strptime` on the empty string), so no statistics bundle is returned. -/
theorem C3_counterexample :
    process_scans [absentReqRec] = .error .valueError :=
  rfl

/-- C4 counterexample: an input with zero processed scans (here: the
empty stream) raises `ZeroDivisionError` in the severity-result
averages, which divide by `total_scan_count` without a guard. -/
theorem C4_counterexample :
    process_scans [] = .error .zeroDivisionError :=
  rfl

/-- A successful step on a LOC-bearing record is exactly a `buildState`
update with successfully extracted timestamp data. -/
theorem stepScan_ok_elim (st st' : ScanState) (r : ScanRecord) (l : Int)
    (hloc : r.loc = some l) (hs : stepScan st r = .ok st') :
    ∃ d sp q t e qi si f,
      strptimeScanDate r.scanRequestedOn = .ok d ∧
      calculate_time_difference r.scanRequestedOn r.queuedOn = .ok sp ∧
      calculate_time_difference r.queuedOn r.engineStartedOn = .ok q ∧
      calculate_time_difference r.scanRequestedOn r.scanCompletedOn = .ok t ∧
      engineTimeOpt r = .ok e ∧
      bracketParseDate r.queuedOn = .ok qi ∧
      bracketParseDate r.engineStartedOn = .ok si ∧
      finishTsOpt r = .ok f ∧
      st' = buildState st r l d sp q t e qi.ts si.ts f := by
  unfold stepScan at hs
  rw [hloc] at hs
  cases h1 : strptimeScanDate r.scanRequestedOn with
  | error e1 => simp [h1] at hs
  | ok d =>
  simp only [h1] at hs
  cases h2 : calculate_time_difference r.scanRequestedOn r.queuedOn with
  | error e2 => simp [h2] at hs
  | ok sp =>
  simp only [h2] at hs
  cases h3 : calculate_time_difference r.queuedOn r.engineStartedOn with
  | error e3 => simp [h3] at hs
  | ok q =>
  simp only [h3] at hs
  cases h4 : calculate_time_difference r.scanRequestedOn r.scanCompletedOn with
  | error e4 => simp [h4] at hs
  | ok t =>
  simp only [h4] at hs
  cases h5 : engineTimeOpt r with
  | error e5 => simp [h5] at hs
  | ok e =>
  simp only [h5] at hs
  cases h6 : bracketParseDate r.queuedOn with
  | error e6 => simp [h6] at hs
  | ok qi =>
  simp only [h6] at hs
  cases h7 : bracketParseDate r.engineStartedOn with
  | error e7 => simp [h7] at hs
  | ok si =>
  simp only [h7] at hs
  cases h8 : finishTsOpt r with
  | error e8 => simp [h8] at hs
  | ok f =>
  simp only [h8, Except.ok.injEq] at hs
  exact ⟨d, sp, q, t, e, qi, si, f, rfl, rfl, rfl, rfl, rfl, rfl, rfl, rfl, hs.symm⟩

/-- An absent engine-finish timestamp yields no engine duration. -/
theorem engineTimeOpt_absent (r : ScanRecord) (h : r.engineFinishedOn = .absent) :
    engineTimeOpt r = .ok none := by
  unfold engineTimeOpt
  rw [h]

/-- A present engine-finish timestamp yields a duration whenever the
extraction succeeds. -/
theorem engineTimeOpt_not_absent (r : ScanRecord) (e : Option Int)
    (hf : ¬r.engineFinishedOn = .absent) (h : engineTimeOpt r = .ok e) :
    ∃ t, e = some t := by
  unfold engineTimeOpt at h
  cases hfe : r.engineFinishedOn with
  | absent => exact absurd hfe hf
  | malformed =>
    rw [hfe] at h
    cases h9 : calculate_time_difference r.engineStartedOn .malformed with
    | error e9 => simp [h9] at h
    | ok t => simp only [h9, Except.ok.injEq] at h; exact ⟨t, h.symm⟩
  | valid i =>
    rw [hfe] at h
    cases h9 : calculate_time_difference r.engineStartedOn (.valid i) with
    | error e9 => simp [h9] at h
    | ok t => simp only [h9, Except.ok.injEq] at h; exact ⟨t, h.symm⟩

/-- Yes-scan counter update of one `buildState` step. -/
theorem buildState_yes_count (st : ScanState) (r : ScanRecord)
    (l d sp q t : Int) (e : Option Int) (qts sts : Int) (f : Option Int) :
    (buildState st r l d sp q t e qts sts f).yes_scan_count
      = st.yes_scan_count + (if e.isSome then 1 else 0) := rfl

/-- No-scan counter update of one `buildState` step. -/
theorem buildState_no_count (st : ScanState) (r : ScanRecord)
    (l d sp q t : Int) (e : Option Int) (qts sts : Int) (f : Option Int) :
    (buildState st r l d sp q t e qts sts f).no_scan_count
      = st.no_scan_count + (if e.isSome then 0 else 1) := rfl

/-- Origins dictionary update of one `buildState` step. -/
theorem buildState_origins (st : ScanState) (r : ScanRecord)
    (l d sp q t : Int) (e : Option Int) (qts sts : Int) (f : Option Int) :
    (buildState st r l d sp q t e qts sts f).origins
      = bumpKey st.origins (r.origin.getD "Unknown".toList) := rfl

/-- A step with no engine duration leaves every bin's engine-time sum and
maximum unchanged. -/
theorem buildState_engine_unchanged (st : ScanState) (r : ScanRecord)
    (l d sp q t : Int) (qts sts : Int) (f : Option Int) (k : List Char) :
    ((buildState st r l d sp q t none qts sts f).size_bins k).engine_scan_time__sum
        = (st.size_bins k).engine_scan_time__sum ∧
    ((buildState st r l d sp q t none qts sts f).size_bins k).engine_scan_time__max
        = (st.size_bins k).engine_scan_time__max := by
  by_cases hk : k = size_bin l <;> simp [buildState, hk]

/-- Splitting the record loop over an append. -/
theorem runScans_append (l1 l2 : List ScanRecord) :
    ∀ st, runScans st (l1 ++ l2) =
      match runScans st l1 with
      | .error e => .error e
      | .ok st1 => runScans st1 l2 := by
  induction l1 with
  | nil => intro st; rfl
  | cons r rest ih =>
    intro st
    simp only [List.cons_append, runScans]
    cases h1 : stepScan st r with
    | error e => rfl
    | ok st1 => exact ih st1

/-- Unfolding `countYes` over a cons. -/
theorem countYes_cons (r : ScanRecord) (rest : List ScanRecord) :
    countYes (r :: rest) =
      (if r.loc.isSome ∧ ¬(r.engineFinishedOn = .absent) then 1 else 0)
        + countYes rest := by
  simp only [countYes, List.filter_cons]
  by_cases h1 : r.loc.isSome <;> by_cases h2 : r.engineFinishedOn = .absent <;>
    simp [h1, h2, Nat.add_comm]

/-- Unfolding `countNo` over a cons. -/
theorem countNo_cons (r : ScanRecord) (rest : List ScanRecord) :
    countNo (r :: rest) =
      (if r.loc.isSome ∧ r.engineFinishedOn = .absent then 1 else 0)
        + countNo rest := by
  simp only [countNo, List.filter_cons]
  by_cases h1 : r.loc.isSome <;> by_cases h2 : r.engineFinishedOn = .absent <;>
    simp [h1, h2, Nat.add_comm]

/-- Along a successful run, the yes and no counters count exactly the
LOC-bearing records with and without an engine-finish timestamp. -/
theorem runScans_yes_no (scans : List ScanRecord) :
    ∀ st0 st : ScanState, runScans st0 scans = .ok st →
      st.yes_scan_count = st0.yes_scan_count + countYes scans ∧
      st.no_scan_count = st0.no_scan_count + countNo scans := by
  induction scans with
  | nil =>
    intro st0 st h
    simp only [runScans, Except.ok.injEq] at h
    subst h
    simp [countYes, countNo]
  | cons r rest ih =>
    intro st0 st h
    simp only [runScans] at h
    cases h1 : stepScan st0 r with
    | error e => simp [h1] at h
    | ok st1 =>
    simp only [h1] at h
    obtain ⟨hy, hn⟩ := ih st1 st h
    cases hloc : r.loc with
    | none =>
      have h0 := stepScan_loc_none st0 r hloc
      rw [h0] at h1
      injection h1 with h1
      subst h1
      rw [countYes_cons, countNo_cons]
      simp only [hloc, Option.isSome_none]
      simp
      omega
    | some l =>
      obtain ⟨d, sp, q, t, e, qi, si, f, _, _, _, _, h5, _, _, _, hb⟩ :=
        stepScan_ok_elim st0 st1 r l hloc h1
      subst hb
      rw [buildState_yes_count] at hy
      rw [buildState_no_count] at hn
      rw [countYes_cons, countNo_cons]
      by_cases hf : r.engineFinishedOn = .absent
      · have he : e = none := by
          have := engineTimeOpt_absent r hf
          rw [this] at h5
          injection h5 with h5
          exact h5.symm
        subst he
        simp only [Option.isSome_none] at hy hn
        simp only [hloc, hf] at *
        simp at hy hn ⊢
        omega
      · obtain ⟨te, hte⟩ := engineTimeOpt_not_absent r e hf h5
        subst hte
        simp only [Option.isSome_some] at hy hn
        simp only [hloc] at *
        simp [hf] at hy hn ⊢
        omega

/-- Records either carry a LOC value or are missing it. -/
theorem countPresent_add_countMissing (scans : List ScanRecord) :
    countPresentLoc scans + countMissingLoc scans = scans.length := by
  induction scans with
  | nil => rfl
  | cons r rest ih =>
    simp only [countPresentLoc, countMissingLoc, List.filter_cons, List.length_cons] at *
    cases hl : r.loc <;> simp [hl] <;> omega

/-- LOC-bearing records split into yes-scans and no-scans. -/
theorem countYes_add_countNo (scans : List ScanRecord) :
    countYes scans + countNo scans = countPresentLoc scans := by
  induction scans with
  | nil => rfl
  | cons r rest ih =>
    simp only [countYes, countNo, countPresentLoc, List.filter_cons] at *
    cases hl : r.loc with
    | none => simp [hl]; omega
    | some l =>
      by_cases hf : r.engineFinishedOn = .absent <;> simp [hl, hf] <;> omega

/-- C5: a record with an absent LOC is fully skipped — the step returns
the accumulator unchanged, so no date, bin, origin, language, preset or
concurrency-event state is touched — and on any successful run the
processed-scan count plus the number of missing-LOC records equals the
total number of input records. -/
theorem C5_missing_loc_skipped :
    (∀ (st : ScanState) (r : ScanRecord), r.loc = none → stepScan st r = .ok st) ∧
    (∀ (scans : List ScanRecord) (st : ScanState),
        processRecords scans = .ok st →
        st.yes_scan_count + st.no_scan_count + countMissingLoc scans = scans.length) := by
  refine ⟨stepScan_loc_none, ?_⟩
  intro scans st h
  obtain ⟨hy, hn⟩ := runScans_yes_no scans initState st h
  have h1 := countPresent_add_countMissing scans
  have h2 := countYes_add_countNo scans
  have h3 : initState.yes_scan_count = 0 := rfl
  have h4 : initState.no_scan_count = 0 := rfl
  omega

/-- C5 witness: a single record with no LOC value is skipped whole, and
the counts balance on the one-record stream. -/
theorem C5_missing_loc_skipped_witness :
    stepScan initState missingLocRec = .ok initState ∧
    initState.yes_scan_count + initState.no_scan_count
        + countMissingLoc [missingLocRec] = [missingLocRec].length :=
  ⟨C5_missing_loc_skipped.1 initState missingLocRec rfl,
   C5_missing_loc_skipped.2 [missingLocRec] initState rfl⟩

/-- C8: along any successful run a record is counted as a yes-scan
exactly when its engine-finish timestamp is present and as a no-scan
otherwise, the final counts satisfy `COUNT_scans = yes + no` (the total
the code forms at line 420 equals the number of LOC-bearing records),
and a step on a no-scan leaves every bin's engine-time sum and maximum
unchanged. -/
theorem C8_yes_no_partition :
    (∀ (scans : List ScanRecord) (st : ScanState),
        processRecords scans = .ok st →
        st.yes_scan_count = countYes scans ∧
        st.no_scan_count = countNo scans ∧
        st.yes_scan_count + st.no_scan_count = countPresentLoc scans) ∧
    (∀ (st st' : ScanState) (r : ScanRecord) (l : Int),
        r.loc = some l → r.engineFinishedOn = .absent → stepScan st r = .ok st' →
        ∀ k : List Char,
          (st'.size_bins k).engine_scan_time__sum
              = (st.size_bins k).engine_scan_time__sum ∧
          (st'.size_bins k).engine_scan_time__max
              = (st.size_bins k).engine_scan_time__max) := by
  constructor
  · intro scans st h
    obtain ⟨hy, hn⟩ := runScans_yes_no scans initState st h
    have h2 := countYes_add_countNo scans
    have h3 : initState.yes_scan_count = 0 := rfl
    have h4 : initState.no_scan_count = 0 := rfl
    omega
  · intro st st' r l hloc hf hs
    obtain ⟨d, sp, q, t, e, qi, si, f, _, _, _, _, h5, _, _, _, hb⟩ :=
      stepScan_ok_elim st st' r l hloc hs
    have he : e = none := by
      have := engineTimeOpt_absent r hf
      rw [this] at h5
      injection h5 with h5
      exact h5.symm
    subst he
    subst hb
    exact fun k => buildState_engine_unchanged st r l d sp q t qi.ts si.ts f k

/-- C8 witness: processing one yes-scan and one no-scan yields one of
each, and stepping the no-scan record leaves the engine-time fields of
its `20k-50k` bin untouched. -/
theorem C8_yes_no_partition_witness :
    (∀ st : ScanState, processRecords [baseRec, noScanRec] = .ok st →
        st.yes_scan_count = 1 ∧ st.no_scan_count = 1 ∧
        st.yes_scan_count + st.no_scan_count = 2) ∧
    (∀ st' : ScanState, stepScan initState noScanRec = .ok st' →
        (st'.size_bins "0 to 20k".toList).engine_scan_time__sum
          = (initState.size_bins "0 to 20k".toList).engine_scan_time__sum) := by
  constructor
  · intro st h
    have := C8_yes_no_partition.1 [baseRec, noScanRec] st h
    simpa using this
  · intro st' h
    exact (C8_yes_no_partition.2 initState st' noScanRec 15000 rfl rfl h
      "0 to 20k".toList).1

/-- C3 amended: a record with an absent LOC is skipped in place, but a
record with a LOC value whose required timestamp is absent or unparsable
raises out of `process_scans`: whatever valid records surround it, the
pass aborts with the exception instead of returning a bundle. -/
theorem C3_amended_abort :
    (∀ (st : ScanState) (r : ScanRecord), r.loc = none → stepScan st r = .ok st) ∧
    (∀ (pre post : List ScanRecord) (r : ScanRecord) (l : Int) (st : ScanState),
        r.loc = some l →
        (r.scanRequestedOn = .absent ∨ r.scanRequestedOn = .malformed) →
        runScans initState pre = .ok st →
        process_scans (pre ++ r :: post) = .error .valueError) := by
  refine ⟨stepScan_loc_none, ?_⟩
  intro pre post r l st hloc hts hpre
  have hstep : stepScan st r = .error .valueError := by
    unfold stepScan
    rw [hloc]
    rcases hts with h | h <;> rw [h] <;> rfl
  have happ : runScans initState (pre ++ r :: post) = .error .valueError := by
    rw [runScans_append]
    rw [hpre]
    simp only [runScans, hstep]
  unfold process_scans processRecords
  rw [happ]

/-- C3 witness: a stream of one valid record followed by a record whose
`ScanRequestedOn` is unparsable aborts the whole pass. -/
theorem C3_amended_abort_witness :
    process_scans [baseRec, malformedReqRec] = .error .valueError :=
  C3_amended_abort.2 [baseRec] [] malformedReqRec 15000
    (buildState initState baseRec 15000 0 0 10 25 (some 10) 0 10 (some 20))
    rfl (Or.inr rfl) rfl

/-- C4 amended: the per-size-bin duration averages guard their zero
denominators (an empty bin is returned unchanged, its averages staying
0), but the severity-result averages are unguarded: they raise
`ZeroDivisionError` exactly when the processed-scan count is zero, and
succeed otherwise. -/
theorem C4_amended_guards :
    (∀ b : BinStats, b.yes_scan_count = 0 → b.no_scan_count = 0 →
        binAvgPass b = b) ∧
    (∀ res : ResultsStats, finalizeResults res 0 = .error .zeroDivisionError) ∧
    (∀ (res : ResultsStats) (total : Nat), 0 < total →
        ∃ res', finalizeResults res total = .ok res') := by
  refine ⟨?_, ?_, ?_⟩
  · intro b h1 h2
    unfold binAvgPass
    simp [h1, h2]
  · intro res
    rfl
  · intro res total h
    unfold finalizeResults
    rw [if_neg (by omega)]
    exact ⟨_, rfl⟩

/-- C4 witness: the all-zero bin passes through unchanged, the all-zero
denominator raises, and a positive denominator succeeds. -/
theorem C4_amended_guards_witness :
    binAvgPass initBinStats = initBinStats ∧
    finalizeResults initResultsStats 0 = .error .zeroDivisionError ∧
    ∃ res', finalizeResults initResultsStats 1 = .ok res' :=
  ⟨C4_amended_guards.1 initBinStats rfl rfl,
   C4_amended_guards.2.1 initResultsStats,
   C4_amended_guards.2.2 initResultsStats 1 (by omega)⟩

/-- C6: evaluating the embedded `output_analysis` day arithmetic on a
stream whose single record is requested on day 0 gives
`total_days = (last_date - first_date).days = 0`, not the claimed
`(last_date - first_date).days + 1 = 1`; the code then divides the scan
count by this zero `total_days` when printing the per-day average. -/
theorem C6_total_days_eval :
    totalDaysOf [baseRec] = .ok 0 ∧
    avgScansPerDay 1 0 = .error .zeroDivisionError :=
  ⟨rfl, rfl⟩

/-- Pulling the accumulator out of the grouping fold. -/
theorem groupTotal_foldl_acc (g : List Char) (m : List (List Char × Nat)) :
    ∀ acc : Nat,
      m.foldl (fun acc p => if originGroup p.1 = g then acc + p.2 else acc) acc
        = acc + groupTotal m g := by
  induction m with
  | nil => intro acc; simp [groupTotal]
  | cons p rest ih =>
    intro acc
    rw [List.foldl_cons, ih]
    have hg : groupTotal (p :: rest) g
        = (if originGroup p.1 = g then p.2 else 0) + groupTotal rest g := by
      show List.foldl _ _ (p :: rest) = _
      rw [List.foldl_cons, ih]
      by_cases hc : originGroup p.1 = g <;> simp [hc]
    rw [hg]
    by_cases hc : originGroup p.1 = g <;> simp [hc] <;> omega

/-- Unfolding `groupTotal` over a cons. -/
theorem groupTotal_cons (k : List Char) (n : Nat) (m : List (List Char × Nat))
    (g : List Char) :
    groupTotal ((k, n) :: m) g =
      (if originGroup k = g then n else 0) + groupTotal m g := by
  show List.foldl _ _ ((k, n) :: m) = _
  rw [List.foldl_cons, groupTotal_foldl_acc]
  by_cases hc : originGroup k = g <;> simp [hc]

/-- Incrementing one origin key adds one to exactly the display bucket
its classification selects. -/
theorem groupTotal_bumpKey (m : List (List Char × Nat)) (k g : List Char) :
    groupTotal (bumpKey m k) g =
      groupTotal m g + (if originGroup k = g then 1 else 0) := by
  induction m with
  | nil =>
    simp only [bumpKey, groupTotal_cons]
    by_cases hc : originGroup k = g <;> simp [hc, groupTotal]
  | cons p rest ih =>
    obtain ⟨k', n⟩ := p
    simp only [bumpKey]
    by_cases hk : k' = k
    · rw [if_pos hk, groupTotal_cons, groupTotal_cons, hk]
      by_cases hc : originGroup k = g <;> simp [hc] <;> omega
    · rw [if_neg hk, groupTotal_cons, groupTotal_cons, ih]
      omega

/-- C10: an absent `Origin` field defaults to the string `Unknown`,
which no enumeration key prefixes, so such a record is counted under the
`Other` display bucket and never under `Missing Origin Type`: the step
bumps the raw-origins dictionary at key `Unknown`, classification maps
`Unknown` to `Other`, and bumping `Unknown` adds one to the `Other`
group total while leaving the `Missing Origin Type` total unchanged. -/
theorem C10_absent_origin_other :
    originGroup "Unknown".toList = "Other".toList ∧
    (∀ (st st' : ScanState) (r : ScanRecord) (l : Int),
        r.origin = none → r.loc = some l → stepScan st r = .ok st' →
        st'.origins = bumpKey st.origins "Unknown".toList) ∧
    (∀ m : List (List Char × Nat),
        groupTotal (bumpKey m "Unknown".toList) "Other".toList
          = groupTotal m "Other".toList + 1 ∧
        groupTotal (bumpKey m "Unknown".toList) "Missing Origin Type".toList
          = groupTotal m "Missing Origin Type".toList) := by
  have hu : originGroup "Unknown".toList = "Other".toList := rfl
  refine ⟨hu, ?_, ?_⟩
  · intro st st' r l ho hloc hs
    obtain ⟨d, sp, q, t, e, qi, si, f, _, _, _, _, _, _, _, _, hb⟩ :=
      stepScan_ok_elim st st' r l hloc hs
    subst hb
    rw [buildState_origins, ho]
    rfl
  · intro m
    constructor
    · rw [groupTotal_bumpKey, hu, if_pos rfl]
    · rw [groupTotal_bumpKey, hu, if_neg (by decide)]
      omega

/-- Unfolding `reconstruct` to its components. -/
theorem reconstruct_eq (events : List CCEvent) (startTs endTs w : Int) :
    reconstruct events startTs endTs w =
      snapshotsAux w ((-((startTs - endTs) / w)).toNat)
        ((events.filter
            (fun e => decide (startTs ≤ e.ts) && decide (e.ts ≤ endTs))).mergeSort
          (fun a b => decide (a.ts ≤ b.ts))) startTs (0, 0) := rfl

/-- The snapshot loop emits one snapshot per grid cell, whatever the
events. -/
theorem snapshotsAux_length (w : Int) :
    ∀ (n : Nat) (l : List CCEvent) (c : Int) (st : Int × Int),
      (snapshotsAux w n l c st).length = n := by
  intro n
  induction n with
  | zero => intro l c st; rfl
  | succ n ih =>
    intro l c st
    simp only [snapshotsAux, List.length_cons, ih]

/-- On a list sorted by instant, consuming events below a boundary by a
running index is the same as filtering by the boundary. -/
theorem takeWhile_eq_filter_of_sorted (B : Int) :
    ∀ l : List CCEvent, l.Pairwise (fun a b => a.ts ≤ b.ts) →
      l.takeWhile (fun e => decide (e.ts < B)) =
        l.filter (fun e => decide (e.ts < B)) := by
  intro l
  induction l with
  | nil => intro _; rfl
  | cons a l ih =>
    intro hp
    rw [List.pairwise_cons] at hp
    by_cases ha : a.ts < B
    · rw [List.takeWhile_cons_of_pos (by simpa using ha),
        List.filter_cons_of_pos (by simpa using ha), ih hp.2]
    · rw [List.takeWhile_cons_of_neg (by simpa using ha),
        List.filter_cons_of_neg (by simpa using ha)]
      symm
      rw [List.filter_eq_nil_iff]
      intro e he
      have h1 := hp.1 e he
      simp only [decide_eq_true_eq]
      omega

/-- Every element kept by the boundary-`B` take satisfies the bound. -/
theorem mem_takeWhile_lt (B : Int) (l : List CCEvent) (e : CCEvent)
    (he : e ∈ l.takeWhile (fun e => decide (e.ts < B))) : e.ts < B := by
  have h := List.all_takeWhile (l := l) (p := fun e => decide (e.ts < B))
  rw [List.all_eq_true] at h
  simpa using h e he

/-- The running-index snapshot walk records, at cell `i`, the state
obtained by folding every event strictly below the cell's end boundary,
in list order, over the initial state. -/
theorem snapshotsAux_getElem (w : Int) (hw : 0 < w) :
    ∀ (n : Nat) (l : List CCEvent) (c : Int) (st : Int × Int) (i : Nat),
      i < n →
      l.Pairwise (fun a b => a.ts ≤ b.ts) →
      (snapshotsAux w n l c st)[i]? =
        some (c + (i : Int) * w,
          (l.filter (fun e => decide (e.ts < c + ((i : Int) + 1) * w))).foldl
            applyCCEvent st) := by
  intro n
  induction n with
  | zero => intro l c st i hi _; omega
  | succ n ih =>
    intro l c st i hi hp
    cases i with
    | zero =>
      simp only [snapshotsAux, List.getElem?_cons_zero, Option.some.injEq]
      rw [takeWhile_eq_filter_of_sorted (c + w) l hp]
      simp
    | succ j =>
      simp only [snapshotsAux, List.getElem?_cons_succ]
      have hp' : (l.dropWhile (fun e => decide (e.ts < c + w))).Pairwise
          (fun a b => a.ts ≤ b.ts) :=
        List.Pairwise.sublist (List.dropWhile_sublist _) hp
      rw [ih (l.dropWhile (fun e => decide (e.ts < c + w))) (c + w) _ j
        (by omega) hp']
      have hcell : (c + w) + (j : Int) * w = c + ((j + 1 : Nat) : Int) * w := by
        push_cast
        ring
      have hbound : (c + w) + ((j : Int) + 1) * w
          = c + (((j + 1 : Nat) : Int) + 1) * w := by
        push_cast
        ring
      have hmono : c + w ≤ c + (((j + 1 : Nat) : Int) + 1) * w := by
        have hj : (0 : Int) ≤ ((j + 1 : Nat) : Int) := by positivity
        nlinarith
      have hsplit :
          l.filter (fun e => decide (e.ts < c + (((j + 1 : Nat) : Int) + 1) * w)) =
            l.takeWhile (fun e => decide (e.ts < c + w)) ++
            (l.dropWhile (fun e => decide (e.ts < c + w))).filter
              (fun e => decide (e.ts < c + (((j + 1 : Nat) : Int) + 1) * w)) := by
        conv =>
          lhs
          rw [(List.takeWhile_append_dropWhile
            (p := fun e => decide (e.ts < c + w)) (l := l)).symm]
        rw [List.filter_append]
        congr 1
        rw [List.filter_eq_self]
        intro e he
        have h1 := mem_takeWhile_lt (c + w) l e he
        simp only [decide_eq_true_eq]
        omega
      rw [hbound, hsplit, List.foldl_append]
      rw [takeWhile_eq_filter_of_sorted (c + w) l hp]
      rw [hcell]

/-- The integer division the code performs on a negated numerator is the
negated ceiling division of naturals. -/
theorem neg_natCast_ediv (m k : Nat) (hk : 0 < k) :
    (-(m : Int)) / (k : Int) = -(((m + k - 1) / k : Nat) : Int) := by
  obtain ⟨q, r, hr, hm⟩ : ∃ q r, r < k ∧ m = k * q + r :=
    ⟨m / k, m % k, Nat.mod_lt _ hk, (Nat.div_add_mod m k).symm⟩
  subst hm
  rcases Nat.eq_zero_or_pos r with hr0 | hrpos
  · subst hr0
    have hleft : (-((k * q + 0 : Nat) : Int)) / (k : Int) = -(q : Int) := by
      push_cast
      rw [show -((k : Int) * (q : Int) + 0) = (k : Int) * (-(q : Int)) by ring]
      exact Int.mul_ediv_cancel_left _ (by exact_mod_cast hk.ne')
    have hright : ((k * q + 0 + k - 1) / k : Nat) = q := by
      have h1 : k * q + 0 + k - 1 = (k - 1) + k * q := by omega
      rw [h1, Nat.add_mul_div_left _ _ hk, Nat.div_eq_of_lt (by omega)]
      omega
    rw [hleft, hright]
  · have hleft : (-((k * q + r : Nat) : Int)) / (k : Int) = -((q : Int) + 1) := by
      have h1 : (-((k * q + r : Nat) : Int))
          = ((k : Int) - (r : Int)) + (-((q : Int) + 1)) * (k : Int) := by
        push_cast
        ring
      rw [h1, Int.add_mul_ediv_right _ _ (by exact_mod_cast hk.ne'),
        Int.ediv_eq_zero_of_lt (by push_cast; omega) (by push_cast; omega)]
      omega
    have hright : ((k * q + r + k - 1) / k : Nat) = q + 1 := by
      have h1 : k * q + r + k - 1 = (r - 1) + k * (q + 1) := by
        rw [Nat.mul_succ]
        omega
      rw [h1, Nat.add_mul_div_left _ _ hk, Nat.div_eq_of_lt (by omega)]
      omega
    rw [hleft, hright]
    push_cast
    omega

/-- C2: for every event list, a window with `start ≤ end`, and a
positive snapshot width, the reconstruction produces exactly
`ceil((end - start) / width)` snapshots — one per grid cell even when no
events fall in a cell — and the cell-`i` snapshot carries the cell start
instant together with the state obtained by applying, in ascending
instant order, every in-window event whose instant is strictly below the
cell's end boundary `start + (i+1)*width`. -/
theorem C2_reconstruct_grid (events : List CCEvent) (s e w : Int)
    (hw : 0 < w) (hse : s ≤ e) :
    (reconstruct events s e w).length
        = ((e - s).toNat + w.toNat - 1) / w.toNat ∧
    ∀ i : Nat, i < (reconstruct events s e w).length →
      (reconstruct events s e w)[i]? =
        some (s + (i : Int) * w,
          (((events.filter
              (fun ev => decide (s ≤ ev.ts) && decide (ev.ts ≤ e))).mergeSort
              (fun a b => decide (a.ts ≤ b.ts))).filter
            (fun ev => decide (ev.ts < s + ((i : Int) + 1) * w))).foldl
            applyCCEvent (0, 0)) := by
  have hn : (-((s - e) / w)).toNat = ((e - s).toNat + w.toNat - 1) / w.toNat := by
    have hes : (s - e) = -(((e - s).toNat : Nat) : Int) := by
      rw [Int.toNat_of_nonneg (by omega)]
      omega
    have hww : w = ((w.toNat : Nat) : Int) := by
      rw [Int.toNat_of_nonneg (by omega)]
    rw [hes]
    conv =>
      lhs
      rw [hww]
    rw [neg_natCast_ediv _ _ (by omega), neg_neg, Int.toNat_natCast]
  have hlen : (reconstruct events s e w).length
      = ((e - s).toNat + w.toNat - 1) / w.toNat := by
    rw [reconstruct_eq, snapshotsAux_length, hn]
  refine ⟨hlen, ?_⟩
  intro i hi
  rw [hlen] at hi
  have hi' : i < (-((s - e) / w)).toNat := by
    rw [hn]
    exact hi
  have hsorted : ((events.filter
      (fun ev => decide (s ≤ ev.ts) && decide (ev.ts ≤ e))).mergeSort
      (fun a b => decide (a.ts ≤ b.ts))).Pairwise (fun a b => a.ts ≤ b.ts) := by
    have h := @List.sorted_mergeSort CCEvent
      (fun a b : CCEvent => decide (a.ts ≤ b.ts))
      (fun a b c h1 h2 => by
        simp only [decide_eq_true_eq] at h1 h2 ⊢
        omega)
      (fun a b => by
        simp only [Bool.or_eq_true, decide_eq_true_eq]
        exact Int.le_total a.ts b.ts)
      (events.filter (fun ev => decide (s ≤ ev.ts) && decide (ev.ts ≤ e)))
    exact h.imp (fun hab => by simpa using hab)
  rw [reconstruct_eq]
  rw [snapshotsAux_getElem w hw _ _ s (0, 0) i hi' hsorted]

/-- C2 witness: with two queue events, window `[0, 10]` and width 4, the
grid has `ceil(10 / 4) = 3` cells, and the middle snapshot starts at 4
and reflects both events (queue up at 3 and down at 5, both strictly
below the cell boundary 8). -/
theorem C2_reconstruct_grid_witness :
    (reconstruct cwEvents 0 10 4).length = 3 ∧
    (reconstruct cwEvents 0 10 4)[1]? = some (4, 0, 0) := by
  have h := C2_reconstruct_grid cwEvents 0 10 4 (by decide) (by decide)
  have hms : (List.filter (fun ev => decide ((0 : Int) ≤ ev.ts)
        && decide (ev.ts ≤ 10)) cwEvents).mergeSort
        (fun a b => decide (a.ts ≤ b.ts)) = cwEvents := by
    have hf : List.filter (fun ev => decide ((0 : Int) ≤ ev.ts)
        && decide (ev.ts ≤ 10)) cwEvents = cwEvents := rfl
    rw [hf]
    exact List.mergeSort_of_sorted (by simp [cwEvents, List.pairwise_cons])
  refine ⟨?_, ?_⟩
  · rw [h.1]
    decide
  · have h2 := h.2 1 (by rw [h.1]; decide)
    rw [h2, hms]
    rfl

/-- C10 witness: stepping a record with no origin from the initial state
bumps the `Unknown` key, and on the empty dictionary the `Other` group
total becomes 1 while `Missing Origin Type` stays 0. -/
theorem C10_absent_origin_other_witness :
    (∀ st' : ScanState, stepScan initState baseRec = .ok st' →
        st'.origins = bumpKey initState.origins "Unknown".toList) ∧
    groupTotal (bumpKey [] "Unknown".toList) "Other".toList = 0 + 1 ∧
    groupTotal (bumpKey [] "Unknown".toList) "Missing Origin Type".toList = 0 := by
  refine ⟨fun st' h =>
    C10_absent_origin_other.2.1 initState st' baseRec 15000 rfl rfl h, ?_, ?_⟩
  · exact (C10_absent_origin_other.2.2 []).1
  · exact (C10_absent_origin_other.2.2 []).2

end FastEHC
